import Mathlib

set_option maxHeartbeats 1000000
set_option maxRecDepth 4000

/-!
Verification of the network-inventory tree renderer (solution.py).

The development embeds the Python program shallowly:

* Pure values model the objects' data (`Address`, `Disk`, `Component`,
  `Computer`, `Network`); methods become Lean functions on those values.
* A Python method that can raise returns `Except String _` (the `error`
  case models an uncaught Python exception) or, where the post-state at
  the raise point matters, a pair of post-state and `Option String`.
* A lookup that returns Python `None` on a miss returns `Option.none`.
* `copy.deepcopy` and reference aliasing are modelled by an explicit
  store (`Store`) of heap objects addressed by `Ref` indices, with a
  resolution function mapping a heap network to a pure `Network` value.
-/

/-- Embeds `Printable.print_me` (solution.py lines 10-31): produce one line of
the tree display. `pfx` is the Python `prefix` argument. The line is the
leading glyph (`" "` or `"|"`, only when a prefix exists), then - when the
prefix exists or this is a root line - the prefix and the branch glyph
(`"\-"` when last, `"+-"` otherwise), then the text `os` and a newline. -/
def printable_print_me (os : String) (pfx : String) (is_last : Bool)
    (no_slash : Bool) (is_root : Bool) : String :=
  (if pfx.length > 0 then (if no_slash then " " else "|") else "")
    ++ (if (is_root && !(pfx.length > 0 : Bool)) || (pfx.length > 0 : Bool) then
          pfx ++ (if is_last then "\\-" else "+-")
        else "")
    ++ os ++ "\n"

/-- Embeds Python `str.rstrip()`: drop trailing whitespace characters. -/
def pyRstrip (s : String) : String :=
  ⟨(s.data.reverse.dropWhile Char.isWhitespace).reverse⟩

/-- Embeds Python `list.index` (used by `BasicCollection.find`): index of the
first element equal to `e`, or `none` when no element matches (where Python
`list.index` raises `ValueError`). -/
def list_index {α : Type} [BEq α] : List α → α → Option Nat
  | [], _ => none
  | x :: rest, e => if x == e then some 0 else (list_index rest e).map (· + 1)

/-- Embeds `BasicCollection.find` (solution.py lines 47-49):
`index = self._items.index(elem); return self._items[index]`.
`list.index` raises `ValueError` when `elem` is absent, so the miss case is an
`Except.error` (a raised exception), not a sentinel. -/
def BasicCollection.find {α : Type} [BEq α] (items : List α) (elem : α) :
    Except String α :=
  match list_index items elem with
  | some i =>
    match items.get? i with
    | some x => Except.ok x
    | none => Except.error "IndexError: list index out of range"
  | none => Except.error "ValueError: elem is not in list"

/-- Data of an `Address` object: the validated text stored in `self.__address`. -/
structure Address where
  address : String
deriving DecidableEq, Inhabited

/-- Embeds `re.match` of the pattern `"[0-9]{1,3}\.{0,1}"` used by
`Address.validate` (solution.py lines 66-70). `re.match` anchors at the start
only: the match succeeds exactly when some prefix of the input is one to three
digits followed by at most one dot; since the rest of the string is
unconstrained and the dot is optional, this holds iff the first character is a
digit. -/
def reMatchAddrPattern (addr : String) : Bool :=
  match addr.data with
  | [] => false
  | c :: _ => c.isDigit

/-- Embeds the `Address` constructor (lines 62-64): validate, then store the
text. A failed validation raises `ValueError("Malformed network address")`. -/
def Address.make (addr : String) : Except String Address :=
  if reMatchAddrPattern addr then Except.ok ⟨addr⟩
  else Except.error "Malformed network address"

/-- Embeds `Address.print_me` (lines 72-73):
`super().print_me(os=self.__address, prefix=" ", no_slash=no_slash)`;
`is_last` and `is_root` keep their `False` defaults. -/
def Address.print_me (a : Address) (no_slash : Bool) : String :=
  printable_print_me a.address " " false no_slash false

/-- Data of a `Disk` object (lines 158-171): storage type (`0` SSD,
`1` MAGNETIC), total size, and the mutable list of `(size, name)` partitions. -/
structure Disk where
  storage_type : Int
  size : Int
  partitions : List (Int × String)
deriving DecidableEq, Inhabited

/-- Constant `Disk.SSD = 0` (line 161). -/
def Disk.SSD : Int := 0

/-- Constant `Disk.MAGNETIC = 1` (line 162). -/
def Disk.MAGNETIC : Int := 1

/-- Embeds the `Disk` constructor (lines 164-171): start with no partitions and
raise `ValueError` when the storage type is neither `SSD` nor `MAGNETIC`. -/
def Disk.make (storage_type : Int) (size : Int) : Except String Disk :=
  if storage_type = Disk.SSD ∨ storage_type = Disk.MAGNETIC then
    Except.ok ⟨storage_type, size, []⟩
  else
    Except.error "Invalid storage type. Shoud be 0 for SSD or 1 for MAGNETIC"

/-- Embeds `Disk.__str__` (lines 173-174): `"HDD"` when the storage type is
`1`, else `"SSD"`. -/
def Disk.str (d : Disk) : String :=
  if d.storage_type = 1 then "HDD" else "SSD"

/-- Sum of the stored partition sizes: `sum(t[0] for t in self.partitions)`. -/
def partSum (ps : List (Int × String)) : Int :=
  (ps.map (fun t => t.1)).sum

/-- Embeds `Disk.add_partition` (lines 176-183) with explicit state passing:
the first component is the disk's post-state, the second is `some msg` when the
call raises `ValueError(msg)` and `none` when it returns normally. The raise
happens before any mutation, so the post-state in the error case is the
unchanged receiver. -/
def Disk.add_partition (d : Disk) (size : Int) (name : String) :
    Disk × Option String :=
  if size > d.size - partSum d.partitions then
    (d, some "Cannot add partition! Not enogh space remained on the disk!")
  else
    ({ d with partitions := d.partitions ++ [(size, name)] }, none)

/-- Wrapper for `Disk.add_partition` as an `Except`, for fluent construction chains
(`Disk(...).add_partition(...)`); the Python method returns `self` on success
and propagates the exception otherwise. -/
def Disk.add_partitionE (d : Disk) (size : Int) (name : String) :
    Except String Disk :=
  match d.add_partition size name with
  | (d', none) => Except.ok d'
  | (_, some e) => Except.error e

/-- Run a sequence of `add_partition` calls against a disk, keeping the
unchanged state of each call that raised (the caller ignores failures). -/
def Disk.applyRequests : Disk → List (Int × String) → Disk
  | d, [] => d
  | d, (s, nm) :: rest => Disk.applyRequests (d.add_partition s nm).1 rest

/-- Embeds the partition loop of `Disk.print_me` (lines 190-196): partition
`idx` renders with prefix `"   "`, `is_last` iff it is the final partition
(Python `idx == partitions_count - 1`, i.e. an empty tail here), and the
disk's own received `no_slash` flag. -/
def Disk.renderPartsFrom (no_slash : Bool) : Nat → List (Int × String) → String
  | _, [] => ""
  | idx, p :: rest =>
    printable_print_me
        ("[" ++ toString idx ++ "]: " ++ toString p.1 ++ " GiB, " ++ p.2)
        "   " rest.isEmpty no_slash false
      ++ Disk.renderPartsFrom no_slash (idx + 1) rest

/-- Embeds `Disk.print_me` (lines 185-202): own line
`"<SSD|HDD>, <size> GiB"` with prefix `" "`, then the partition lines. -/
def Disk.print_me (d : Disk) (is_last no_slash : Bool) : String :=
  printable_print_me (d.str ++ ", " ++ toString d.size ++ " GiB") " "
      is_last no_slash false
    ++ Disk.renderPartsFrom no_slash 0 d.partitions

/-- The polymorphic `Component` variants: `CPU(cores, mhz)` (lines 207-217),
`Memory(size)` (lines 219-228) and `Disk` (lines 158-205). -/
inductive Component where
  | cpu (cores : Int) (mhz : Int)
  | memory (size : Int)
  | disk (d : Disk)
deriving DecidableEq, Inhabited

/-- Embeds the `print_me` methods of `CPU` (line 213-214), `Memory`
(lines 224-225) and the dispatch to `Disk.print_me`. -/
def Component.print_me : Component → Bool → Bool → String
  | .cpu cores mhz, is_last, no_slash =>
    printable_print_me
      ("CPU, " ++ toString cores ++ " cores @ " ++ toString mhz ++ "MHz")
      " " is_last no_slash false
  | .memory size, is_last, no_slash =>
    printable_print_me ("Memory, " ++ toString size ++ " MiB")
      " " is_last no_slash false
  | .disk d, is_last, no_slash => d.print_me is_last no_slash

/-- Data of a `Computer` object (lines 78-96): name, the `self.__addresses`
list and the inherited `BasicCollection._items` list of components. -/
structure Computer where
  name : String
  addresses : List Address
  items : List Component
deriving DecidableEq, Inhabited

/-- The `Computer` constructor (lines 80-84): empty address and item lists. -/
def Computer.new (name : String) : Computer := ⟨name, [], []⟩

/-- Embeds `Computer.add_address` (lines 86-88): construct an `Address`
(which validates and may raise) and append it. -/
def Computer.add_address (c : Computer) (addr : String) : Except String Computer :=
  (Address.make addr).map fun a => { c with addresses := c.addresses ++ [a] }

/-- Embeds `Computer.add_component` (lines 90-92): append to `_items`. -/
def Computer.add_component (c : Computer) (comp : Component) : Computer :=
  { c with items := c.items ++ [comp] }

/-- Embeds the address loop of `Computer.print_me` (lines 103-104): every
address renders with the computer's received `no_slash` flag. -/
def renderAddresses (no_slash : Bool) : List Address → String
  | [] => ""
  | a :: rest => a.print_me no_slash ++ renderAddresses no_slash rest

/-- Embeds the component loop of `Computer.print_me` (lines 106-111): the
component at `idx` renders with `is_last` iff `idx == components_count - 1`
(an empty tail here) and with `no_slash` equal to the computer's own
`is_last`, which is the `no_slash` argument the loop receives below. -/
def renderComponents (no_slash : Bool) : List Component → String
  | [] => ""
  | c :: rest => c.print_me rest.isEmpty no_slash ++ renderComponents no_slash rest

/-- Embeds `Computer.print_me` (lines 98-117): header
`super(Component, self).print_me(os="Host: <name>", is_last=is_last,
is_root=True)` (so prefix `""`, `no_slash` default `False`), then the
addresses with the received `no_slash`, then the components with
`no_slash := is_last`. -/
def Computer.print_me (c : Computer) (is_last no_slash : Bool) : String :=
  printable_print_me ("Host: " ++ c.name) "" is_last false true
    ++ renderAddresses no_slash c.addresses
    ++ renderComponents is_last c.items

/-- Data of a `Network` object (lines 122-126). -/
structure Network where
  name : String
  computers : List Computer
deriving DecidableEq, Inhabited

/-- The `Network` constructor (lines 124-126). -/
def Network.new (name : String) : Network := ⟨name, []⟩

/-- Embeds `Network.add_computer` (lines 128-130). -/
def Network.add_computer (n : Network) (c : Computer) : Network :=
  { n with computers := n.computers ++ [c] }

/-- Embeds `Network.find_computer` (lines 132-134):
`found = list(filter(lambda c: c.name == name, ...))`, then the first match or
Python `None` (modelled as `Option.none`). -/
def Network.find_computer (n : Network) (name : String) : Option Computer :=
  (n.computers.filter (fun c => c.name == name)).head?

/-- Embeds the computer loop of `Network.__str__` (lines 141-146): the final
computer renders with `is_last=True, no_slash=True`, every other with
`is_last=False, no_slash=False`; both flags are `rest.isEmpty` here. -/
def renderComputers : List Computer → String
  | [] => ""
  | c :: rest => c.print_me rest.isEmpty rest.isEmpty ++ renderComputers rest

/-- Embeds `Network.__str__` (lines 136-153): header
`super().print_me(os="Network: <name>", is_root=False)` (prefix `""`, all
flags defaulted/false, so the header is just the text and a newline), the
computer lines, and a final `rstrip()`. -/
def Network.str (n : Network) : String :=
  pyRstrip (printable_print_me ("Network: " ++ n.name) "" false false false
    ++ renderComputers n.computers)

/-- The network built by `main()` (solution.py lines 231-253), assembled
through the same constructor/add operations the program uses. -/
def exampleNetwork : Except String Network := do
  let c1 ← (Computer.new "server1.misis.ru").add_address "192.168.1.1"
  let c1 := (c1.add_component (Component.cpu 4 2500)).add_component
    (Component.memory 16000)
  let c2 ← (Computer.new "server2.misis.ru").add_address "10.0.0.1"
  let c2 := c2.add_component (Component.cpu 8 3200)
  let d0 ← Disk.make Disk.MAGNETIC 2000
  let d1 ← d0.add_partitionE 500 "system"
  let d2 ← d1.add_partitionE 1500 "data"
  let c2 := c2.add_component (Component.disk d2)
  pure (((Network.new "MISIS network").add_computer c1).add_computer c2)

/-- The value `find_computer "server2.misis.ru"` must produce on the example
network: the second computer exactly as built. -/
def exServer2 : Computer :=
  ⟨"server2.misis.ru", [⟨"10.0.0.1"⟩],
    [Component.cpu 8 3200, Component.disk ⟨1, 2000, [(500, "system"), (1500, "data")]⟩]⟩

/-! ### Instrumented rendering

The traced functions below recompute exactly the strings of the `print_me`
functions above while also recording, for every recursive child render call the
source performs, which flags were passed: the `is_last` of the calling node,
and the `is_last`/`no_slash` arguments given to the child. Agreement of the
string component with the plain functions is proved below
(`renderComputersTraced_str` etc.). -/

/-- The three parent-to-child render edges of the composite structure. -/
inductive EdgeKind where
  | computerToAddress
  | computerToComponent
  | diskToPartition
deriving DecidableEq, Inhabited

/-- One recursive child render call: the kind of edge, the `is_last` value of
the calling (parent) node, and the `is_last` and `no_slash` arguments the
parent passed to the child. For an address child, `child_is_last` is the
`False` default of `Printable.print_me` that `Address.print_me` leaves in
place. -/
structure ChildCall where
  kind : EdgeKind
  parent_is_last : Bool
  child_is_last : Bool
  child_no_slash : Bool
deriving DecidableEq, Inhabited

/-- Variant of `Disk.renderPartsFrom` with the partition render calls recorded;
`d_is_last` is the disk's own `is_last` argument. -/
def Disk.renderPartsFromTraced (d_is_last no_slash : Bool) :
    Nat → List (Int × String) → String × List ChildCall
  | _, [] => ("", [])
  | idx, p :: rest =>
    let t := Disk.renderPartsFromTraced d_is_last no_slash (idx + 1) rest
    (printable_print_me
        ("[" ++ toString idx ++ "]: " ++ toString p.1 ++ " GiB, " ++ p.2)
        "   " rest.isEmpty no_slash false ++ t.1,
     ⟨EdgeKind.diskToPartition, d_is_last, rest.isEmpty, no_slash⟩ :: t.2)

/-- Variant of `Disk.print_me` with its partition render calls recorded. -/
def Disk.print_me_traced (d : Disk) (is_last no_slash : Bool) :
    String × List ChildCall :=
  let t := Disk.renderPartsFromTraced is_last no_slash 0 d.partitions
  (printable_print_me (d.str ++ ", " ++ toString d.size ++ " GiB") " "
      is_last no_slash false ++ t.1, t.2)

/-- Variant of `Component.print_me` with the recursive calls inside a disk recorded. -/
def Component.print_me_traced : Component → Bool → Bool → String × List ChildCall
  | .cpu cores mhz, is_last, no_slash =>
    (Component.print_me (.cpu cores mhz) is_last no_slash, [])
  | .memory size, is_last, no_slash =>
    (Component.print_me (.memory size) is_last no_slash, [])
  | .disk d, is_last, no_slash => d.print_me_traced is_last no_slash

/-- The address loop of `Computer.print_me` with its calls recorded;
`c_is_last` is the computer's own `is_last` argument. -/
def renderAddressesTraced (c_is_last no_slash : Bool) :
    List Address → String × List ChildCall
  | [] => ("", [])
  | a :: rest =>
    let t := renderAddressesTraced c_is_last no_slash rest
    (a.print_me no_slash ++ t.1,
     ⟨EdgeKind.computerToAddress, c_is_last, false, no_slash⟩ :: t.2)

/-- The component loop of `Computer.print_me` with its calls recorded. -/
def renderComponentsTraced (c_is_last no_slash : Bool) :
    List Component → String × List ChildCall
  | [] => ("", [])
  | c :: rest =>
    let t1 := c.print_me_traced rest.isEmpty no_slash
    let t2 := renderComponentsTraced c_is_last no_slash rest
    (t1.1 ++ t2.1,
     ⟨EdgeKind.computerToComponent, c_is_last, rest.isEmpty, no_slash⟩
       :: (t1.2 ++ t2.2))

/-- Variant of `Computer.print_me` with every recursive child call recorded; the
component loop passes `no_slash := is_last` exactly as in the source. -/
def Computer.print_me_traced (c : Computer) (is_last no_slash : Bool) :
    String × List ChildCall :=
  let ta := renderAddressesTraced is_last no_slash c.addresses
  let tc := renderComponentsTraced is_last is_last c.items
  (printable_print_me ("Host: " ++ c.name) "" is_last false true
     ++ ta.1 ++ tc.1, ta.2 ++ tc.2)

/-- The computer loop of `Network.__str__` with all nested calls recorded. -/
def renderComputersTraced : List Computer → String × List ChildCall
  | [] => ("", [])
  | c :: rest =>
    let t1 := c.print_me_traced rest.isEmpty rest.isEmpty
    let t2 := renderComputersTraced rest
    (t1.1 ++ t2.1, t1.2 ++ t2.2)

/-- Variant of `Network.__str__` with every nested child render call recorded. -/
def Network.strTraced (n : Network) : String × List ChildCall :=
  let t := renderComputersTraced n.computers
  (pyRstrip (printable_print_me ("Network: " ++ n.name) "" false false false
     ++ t.1), t.2)

/-- A network exercising the flag threading: its single (hence last) computer
holds a disk with one partition followed by a CPU, so the disk is a non-last
child of a last parent. Buildable through the program's API:
`Network("net").add_computer(Computer("h").add_component(Disk(Disk.MAGNETIC,
2000).add_partition(500, "p")).add_component(CPU(1, 1)))`. -/
def cexNet : Network :=
  ⟨"net", [⟨"h", [], [Component.disk ⟨1, 2000, [(500, "p")]⟩, Component.cpu 1 1]⟩]⟩

/-! ### Heap model for `copy.deepcopy` and aliasing

Python objects are mutable and aliased by reference; `Network.clone`,
`Computer.clone` and `Disk.clone` call `copy.deepcopy(self)`. To state
clone independence we model the mutable objects explicitly: a `Store` holds
the `Computer` and `Disk` objects, and the object graph refers to them by
`Ref` indices. `CPU`, `Memory` and `Address` carry no mutable state that any
operation of the program writes after construction, so they stay inline
values. `copy.deepcopy`'s memoisation of shared sub-objects is not modelled;
in the trees this program builds each object occurs once, where the two
semantics agree, and none of the proved statements depends on internal
sharing inside one tree. -/

/-- A reference into the store: an index. -/
abbrev Ref := Nat

/-- A component as stored inside a heap computer: CPU and Memory inline,
a disk by reference. -/
inductive ComponentObj where
  | cpu (cores : Int) (mhz : Int)
  | memory (size : Int)
  | disk (r : Ref)
deriving DecidableEq, Inhabited

/-- A heap `Computer` object. -/
structure ComputerObj where
  name : String
  addresses : List Address
  items : List ComponentObj
deriving DecidableEq, Inhabited

/-- The heap: all allocated computer and disk objects, addressed by index. -/
structure Store where
  computers : List ComputerObj
  disks : List Disk
deriving DecidableEq, Inhabited

/-- A heap `Network` object: its name and the references of its computers. -/
structure NetworkH where
  name : String
  computers : List Ref
deriving DecidableEq, Inhabited

/-- Read a computer object (out-of-range reads yield the default; they never
occur on well-formed data). -/
def Store.getComputer (st : Store) (r : Ref) : ComputerObj :=
  st.computers.getD r default

/-- Read a disk object. -/
def Store.getDisk (st : Store) (r : Ref) : Disk :=
  st.disks.getD r default

/-- The disk references a stored component mentions. -/
def ComponentObj.diskRefList : ComponentObj → List Ref
  | .disk r => [r]
  | _ => []

/-- The disk references reachable from a heap computer object. -/
def compDiskRefs (co : ComputerObj) : List Ref :=
  (co.items.map ComponentObj.diskRefList).flatten

/-- The disk references reachable from a heap network. -/
def NetworkH.diskRefs (n : NetworkH) (st : Store) : List Ref :=
  (n.computers.map (fun r => compDiskRefs (st.getComputer r))).flatten

/-- Dereference a stored component to its pure value. -/
def ComponentObj.resolve (st : Store) : ComponentObj → Component
  | .cpu c m => Component.cpu c m
  | .memory s => Component.memory s
  | .disk r => Component.disk (st.getDisk r)

/-- Dereference a computer reference to the pure `Computer` value it denotes:
the observable state of that object. -/
def Store.resolveComputer (st : Store) (r : Ref) : Computer :=
  ⟨(st.getComputer r).name, (st.getComputer r).addresses,
   (st.getComputer r).items.map (ComponentObj.resolve st)⟩

/-- The pure `Network` value a heap network denotes: its full observable
state, which `Network.__str__` renders. -/
def NetworkH.resolve (n : NetworkH) (st : Store) : Network :=
  ⟨n.name, n.computers.map st.resolveComputer⟩

/-- Well-formedness of a stored component: its disk reference is allocated. -/
def ComponentObj.wf (st : Store) : ComponentObj → Bool
  | .disk r => r < st.disks.length
  | _ => true

/-- Well-formedness of a computer reference: allocated, and every component
of the object it denotes is well formed. -/
def Store.wfComputer (st : Store) (r : Ref) : Bool :=
  decide (r < st.computers.length)
    && (st.getComputer r).items.all (ComponentObj.wf st)

/-- Well-formedness of a heap network: every computer reference is well
formed. -/
def NetworkH.wf (n : NetworkH) (st : Store) : Bool :=
  n.computers.all st.wfComputer

/-- Embeds `copy.deepcopy` of an item list: disk objects are copied into fresh cells
(the copy holds the same `Disk` value), CPU and Memory are value-copied. -/
def deepcopyItems : Store → List ComponentObj → List ComponentObj × Store
  | st, [] => ([], st)
  | st, ComponentObj.cpu a b :: rest =>
    let p := deepcopyItems st rest
    (ComponentObj.cpu a b :: p.1, p.2)
  | st, ComponentObj.memory s :: rest =>
    let p := deepcopyItems st rest
    (ComponentObj.memory s :: p.1, p.2)
  | st, ComponentObj.disk r :: rest =>
    let p := deepcopyItems
      { st with disks := st.disks ++ [st.getDisk r] } rest
    (ComponentObj.disk st.disks.length :: p.1, p.2)

/-- Embeds `copy.deepcopy` of one computer object: copy its items deeply, then
allocate the copied computer in a fresh cell and return its reference. -/
def Store.copyComputer (st : Store) (r : Ref) : Ref × Store :=
  let p := deepcopyItems st (st.getComputer r).items
  (p.2.computers.length,
   { p.2 with computers := p.2.computers
       ++ [⟨(st.getComputer r).name, (st.getComputer r).addresses, p.1⟩] })

/-- Embeds `copy.deepcopy` of a list of computer references, left to right. -/
def deepcopyComputers : Store → List Ref → List Ref × Store
  | st, [] => ([], st)
  | st, r :: rest =>
    let p1 := st.copyComputer r
    let p2 := deepcopyComputers p1.2 rest
    (p1.1 :: p2.1, p2.2)

/-- Embeds `Network.clone` (lines 155-156), i.e. `copy.deepcopy(self)` on a
network: every reachable computer and disk is reconstructed in fresh cells. -/
def NetworkH.deepcopy (n : NetworkH) (st : Store) : NetworkH × Store :=
  let p := deepcopyComputers st n.computers
  (⟨n.name, p.1⟩, p.2)

/-- Heap version of `Network.find_computer`: the reference of the first
computer whose name matches, or `none`. -/
def NetworkH.find_computer_ref (n : NetworkH) (st : Store) (name : String) :
    Option Ref :=
  (n.computers.filter (fun r => (st.getComputer r).name == name)).head?

/-- In-place `Computer.add_component` through a reference: append a stored
component to the referenced computer's `_items`. -/
def Store.addComponentRef (st : Store) (r : Ref) (c : ComponentObj) : Store :=
  let co := st.getComputer r
  { st with computers := st.computers.set r { co with items := co.items ++ [c] } }

/-- In-place `Computer.add_address` through a reference. -/
def Store.addAddressRef (st : Store) (r : Ref) (a : Address) : Store :=
  let co := st.getComputer r
  { st with computers := st.computers.set r { co with addresses := co.addresses ++ [a] } }

/-- In-place `Disk.add_partition` through a reference (post-state of the
call, whether or not it raised). -/
def Store.addPartitionRef (st : Store) (r : Ref) (size : Int) (nm : String) :
    Store :=
  { st with disks := st.disks.set r ((st.getDisk r).add_partition size nm).1 }

/-- A component argument for `add_component` as the program builds one: CPU
and Memory values, or a freshly constructed `Disk` object. -/
inductive NewComponent where
  | cpu (cores : Int) (mhz : Int)
  | memory (size : Int)
  | disk (d : Disk)
deriving DecidableEq, Inhabited

/-- Embeds `c.add_component(arg)` where `arg` is a newly constructed component, as in
`main()`: a new disk is allocated in a fresh cell first, then appended by
reference. -/
def Store.addNewComponent (st : Store) (r : Ref) : NewComponent → Store
  | .cpu a b => st.addComponentRef r (ComponentObj.cpu a b)
  | .memory s => st.addComponentRef r (ComponentObj.memory s)
  | .disk d =>
    Store.addComponentRef { st with disks := st.disks ++ [d] } r
      (ComponentObj.disk st.disks.length)

/-- The `main()` network loaded into the heap model: two computer objects,
one disk object, referenced by the network. -/
def exStore : Store :=
  ⟨[⟨"server1.misis.ru", [⟨"192.168.1.1"⟩],
      [ComponentObj.cpu 4 2500, ComponentObj.memory 16000]⟩,
    ⟨"server2.misis.ru", [⟨"10.0.0.1"⟩],
      [ComponentObj.cpu 8 3200, ComponentObj.disk 0]⟩],
   [⟨1, 2000, [(500, "system"), (1500, "data")]⟩]⟩

/-- The heap network of `main()`. -/
def exNetH : NetworkH := ⟨"MISIS network", [0, 1]⟩

/-- The clone `x = n.clone()` of `main()`: the copied network and the store
after copying. -/
def exCopy : NetworkH × Store := exNetH.deepcopy exStore

/-- The SSD disk `main()` adds to the clone:
`Disk(Disk.SSD, 500).add_partition(500, "fast_storage")`. -/
def exSsd : Disk := ⟨0, 500, [(500, "fast_storage")]⟩

/-- Store extension: `st'` holds the same objects as `st` in the same cells,
plus freshly allocated ones at the end. Every operation of the program either
extends the store or overwrites one existing cell. -/
def Store.Ext (st st' : Store) : Prop :=
  ∃ cs ds, st'.computers = st.computers ++ cs ∧ st'.disks = st.disks ++ ds

/-- A disk with a negative declared total size, `Disk(Disk.MAGNETIC, -1)`:
legal per the constructor's validation, which only checks the storage type. -/
def exBadDisk : Disk := ⟨1, -1, []⟩

/-! ## Helper lemmas -/

theorem getD_set_ne {α : Type} (l : List α) (i j : Nat) (x d : α) (h : i ≠ j) :
    (l.set i x).getD j d = l.getD j d := by
  simp [List.getD, List.getElem?_set_ne h]

theorem getD_append_lt {α : Type} (l l' : List α) (d : α) (i : Nat)
    (h : i < l.length) : (l ++ l').getD i d = l.getD i d :=
  List.getD_append l l' d i h

theorem getD_append_exact {α : Type} (l : List α) (x : α) (rest : List α)
    (d : α) : (l ++ x :: rest).getD l.length d = x := by
  simp [List.getD, List.getElem?_append_right (Nat.le_refl _)]

theorem partSum_append (l : List (Int × String)) (p : Int × String) :
    partSum (l ++ [p]) = partSum l + p.1 := by
  simp [partSum]

theorem add_partition_size (d : Disk) (s : Int) (nm : String) :
    ((d.add_partition s nm).1).size = d.size := by
  unfold Disk.add_partition; split <;> rfl

theorem add_partition_sum_le (d : Disk) (s : Int) (nm : String)
    (h : partSum d.partitions ≤ d.size) :
    partSum ((d.add_partition s nm).1).partitions ≤ d.size := by
  unfold Disk.add_partition
  split
  · exact h
  · rename_i hc
    simp only [partSum_append]
    omega

theorem applyRequests_size (d : Disk) (reqs : List (Int × String)) :
    (Disk.applyRequests d reqs).size = d.size := by
  induction reqs generalizing d with
  | nil => rfl
  | cons p rest ih =>
    obtain ⟨s, nm⟩ := p
    simp only [Disk.applyRequests]
    rw [ih, add_partition_size]

theorem applyRequests_sum_le (d : Disk) (reqs : List (Int × String))
    (h : partSum d.partitions ≤ d.size) :
    partSum (Disk.applyRequests d reqs).partitions ≤ d.size := by
  induction reqs generalizing d with
  | nil => exact h
  | cons p rest ih =>
    obtain ⟨s, nm⟩ := p
    simp only [Disk.applyRequests]
    have h3 : partSum ((d.add_partition s nm).1).partitions
        ≤ ((d.add_partition s nm).1).size := by
      rw [add_partition_size]; exact add_partition_sum_le d s nm h
    have h4 := ih ((d.add_partition s nm).1) h3
    rwa [add_partition_size] at h4

theorem find_computer_none_of_all_ne (net : Network) (nm : String)
    (h : ∀ c ∈ net.computers, c.name ≠ nm) : net.find_computer nm = none := by
  unfold Network.find_computer
  have hf : net.computers.filter (fun c => c.name == nm) = [] := by
    apply List.filter_eq_nil_iff.mpr
    intro c hc
    simp [h c hc]
  rw [hf]; rfl

theorem find_computer_first (net : Network) (nm : String) (l1 : List Computer)
    (c : Computer) (l2 : List Computer) (hsplit : net.computers = l1 ++ c :: l2)
    (hc : c.name = nm) (hpre : ∀ c' ∈ l1, c'.name ≠ nm) :
    net.find_computer nm = some c := by
  unfold Network.find_computer
  rw [hsplit, List.filter_append]
  have h1 : l1.filter (fun c => c.name == nm) = [] := by
    apply List.filter_eq_nil_iff.mpr
    intro c' hc'
    simp [hpre c' hc']
  rw [h1, List.filter_cons]
  simp [hc]

theorem list_index_eq_none {α : Type} [BEq α] (l : List α) (e : α)
    (h : ∀ x ∈ l, (x == e) = false) : list_index l e = none := by
  induction l with
  | nil => rfl
  | cons x rest ih =>
    simp only [list_index]
    rw [h x (List.mem_cons_self x rest)]
    simp only [if_neg Bool.false_ne_true]
    rw [ih (fun y hy => h y (List.mem_cons_of_mem x hy))]
    rfl

/-! ### Agreement of the traced renderers with the plain ones -/

theorem renderPartsFromTraced_str (a b : Bool) (i : Nat)
    (l : List (Int × String)) :
    (Disk.renderPartsFromTraced a b i l).1 = Disk.renderPartsFrom b i l := by
  induction l generalizing i with
  | nil => rfl
  | cons p rest ih =>
    simp only [Disk.renderPartsFromTraced, Disk.renderPartsFrom, ih]

theorem disk_print_me_traced_str (d : Disk) (a b : Bool) :
    (d.print_me_traced a b).1 = d.print_me a b := by
  simp only [Disk.print_me_traced, Disk.print_me, renderPartsFromTraced_str]

theorem component_print_me_traced_str (c : Component) (a b : Bool) :
    (c.print_me_traced a b).1 = c.print_me a b := by
  cases c <;>
    simp only [Component.print_me_traced, disk_print_me_traced_str,
      Component.print_me]

theorem renderAddressesTraced_str (a b : Bool) (l : List Address) :
    (renderAddressesTraced a b l).1 = renderAddresses b l := by
  induction l with
  | nil => rfl
  | cons x rest ih => simp only [renderAddressesTraced, renderAddresses, ih]

theorem renderComponentsTraced_str (a b : Bool) (l : List Component) :
    (renderComponentsTraced a b l).1 = renderComponents b l := by
  induction l with
  | nil => rfl
  | cons x rest ih =>
    simp only [renderComponentsTraced, renderComponents, ih,
      component_print_me_traced_str]

theorem computer_print_me_traced_str (c : Computer) (a b : Bool) :
    (c.print_me_traced a b).1 = c.print_me a b := by
  simp only [Computer.print_me_traced, Computer.print_me,
    renderAddressesTraced_str, renderComponentsTraced_str]

theorem renderComputersTraced_str (l : List Computer) :
    (renderComputersTraced l).1 = renderComputers l := by
  induction l with
  | nil => rfl
  | cons c rest ih =>
    simp only [renderComputersTraced, renderComputers, ih,
      computer_print_me_traced_str]

theorem strTraced_str (n : Network) : (n.strTraced).1 = n.str := by
  simp only [Network.strTraced, Network.str, renderComputersTraced_str]

/-! ### What the traces contain -/

theorem mem_renderPartsFromTraced {ev : ChildCall} (a b : Bool) (i : Nat)
    (l : List (Int × String))
    (h : ev ∈ (Disk.renderPartsFromTraced a b i l).2) :
    ev.kind = EdgeKind.diskToPartition ∧ ev.parent_is_last = a
      ∧ ev.child_no_slash = b := by
  induction l generalizing i with
  | nil => simp [Disk.renderPartsFromTraced] at h
  | cons p rest ih =>
    simp only [Disk.renderPartsFromTraced, List.mem_cons] at h
    rcases h with h | h
    · subst h; exact ⟨rfl, rfl, rfl⟩
    · exact ih _ h

theorem mem_disk_print_me_traced {ev : ChildCall} (d : Disk) (a b : Bool)
    (h : ev ∈ (d.print_me_traced a b).2) :
    ev.kind = EdgeKind.diskToPartition ∧ ev.parent_is_last = a
      ∧ ev.child_no_slash = b := by
  simp only [Disk.print_me_traced] at h
  exact mem_renderPartsFromTraced a b 0 d.partitions h

theorem mem_component_print_me_traced {ev : ChildCall} (c : Component)
    (a b : Bool) (h : ev ∈ (c.print_me_traced a b).2) :
    ev.kind = EdgeKind.diskToPartition ∧ ev.parent_is_last = a
      ∧ ev.child_no_slash = b := by
  cases c with
  | cpu x y => simp [Component.print_me_traced] at h
  | memory s => simp [Component.print_me_traced] at h
  | disk d => exact mem_disk_print_me_traced d a b h

theorem mem_renderAddressesTraced {ev : ChildCall} (a b : Bool)
    (l : List Address) (h : ev ∈ (renderAddressesTraced a b l).2) :
    ev.kind = EdgeKind.computerToAddress ∧ ev.parent_is_last = a
      ∧ ev.child_is_last = false ∧ ev.child_no_slash = b := by
  induction l with
  | nil => simp [renderAddressesTraced] at h
  | cons x rest ih =>
    simp only [renderAddressesTraced, List.mem_cons] at h
    rcases h with h | h
    · subst h; exact ⟨rfl, rfl, rfl, rfl⟩
    · exact ih h

theorem mem_renderComponentsTraced {ev : ChildCall} (a b : Bool)
    (l : List Component) (h : ev ∈ (renderComponentsTraced a b l).2) :
    (ev.kind = EdgeKind.computerToComponent ∧ ev.parent_is_last = a
        ∧ ev.child_no_slash = b)
      ∨ (ev.kind = EdgeKind.diskToPartition ∧ ev.child_no_slash = b) := by
  induction l with
  | nil => simp [renderComponentsTraced] at h
  | cons c rest ih =>
    simp only [renderComponentsTraced, List.mem_cons, List.mem_append] at h
    rcases h with h | h | h
    · subst h; exact Or.inl ⟨rfl, rfl, rfl⟩
    · exact Or.inr ⟨(mem_component_print_me_traced c _ b h).1,
        (mem_component_print_me_traced c _ b h).2.2⟩
    · exact ih h

theorem mem_computer_print_me_traced {ev : ChildCall} (c : Computer)
    (il ns : Bool) (h : ev ∈ (c.print_me_traced il ns).2) :
    (ev.kind = EdgeKind.computerToAddress ∧ ev.parent_is_last = il
        ∧ ev.child_no_slash = ns)
      ∨ (ev.kind = EdgeKind.computerToComponent ∧ ev.parent_is_last = il
        ∧ ev.child_no_slash = il)
      ∨ (ev.kind = EdgeKind.diskToPartition ∧ ev.child_no_slash = il) := by
  simp only [Computer.print_me_traced, List.mem_append] at h
  rcases h with h | h
  · have := mem_renderAddressesTraced il ns c.addresses h
    exact Or.inl ⟨this.1, this.2.1, this.2.2.2⟩
  · rcases mem_renderComponentsTraced il il c.items h with h2 | h2
    · exact Or.inr (Or.inl h2)
    · exact Or.inr (Or.inr h2)

theorem mem_renderComputersTraced {ev : ChildCall} (l : List Computer)
    (h : ev ∈ (renderComputersTraced l).2) :
    ∃ (c : Computer) (b : Bool), ev ∈ (c.print_me_traced b b).2 := by
  induction l with
  | nil => simp [renderComputersTraced] at h
  | cons c rest ih =>
    simp only [renderComputersTraced, List.mem_append] at h
    rcases h with h | h
    · exact ⟨c, rest.isEmpty, h⟩
    · exact ih h

theorem mem_strTraced {ev : ChildCall} (n : Network)
    (h : ev ∈ (n.strTraced).2) :
    ∃ b : Bool, ev.child_no_slash = b
      ∧ (ev.kind = EdgeKind.computerToComponent → ev.parent_is_last = b) := by
  simp only [Network.strTraced] at h
  obtain ⟨c, b, hc⟩ := mem_renderComputersTraced n.computers h
  rcases mem_computer_print_me_traced c b b hc with h2 | h2 | h2
  · exact ⟨b, h2.2.2, fun hk => absurd (h2.1 ▸ hk) (by simp)⟩
  · exact ⟨b, h2.2.2, fun _ => h2.2.1⟩
  · exact ⟨b, h2.2, fun hk => absurd (h2.1 ▸ hk) (by simp)⟩

/-! ### Store extension and stability of resolution -/

theorem ext_refl (st : Store) : st.Ext st :=
  ⟨[], [], (List.append_nil _).symm, (List.append_nil _).symm⟩

theorem ext_trans {st st1 st2 : Store} (h1 : st.Ext st1) (h2 : st1.Ext st2) :
    st.Ext st2 := by
  obtain ⟨cs1, ds1, hc1, hd1⟩ := h1
  obtain ⟨cs2, ds2, hc2, hd2⟩ := h2
  exact ⟨cs1 ++ cs2, ds1 ++ ds2,
    by rw [hc2, hc1, List.append_assoc],
    by rw [hd2, hd1, List.append_assoc]⟩

theorem ext_computers_le {st st' : Store} (h : st.Ext st') :
    st.computers.length ≤ st'.computers.length := by
  obtain ⟨cs, ds, hc, hd⟩ := h
  rw [hc, List.length_append]
  omega

theorem ext_disks_le {st st' : Store} (h : st.Ext st') :
    st.disks.length ≤ st'.disks.length := by
  obtain ⟨cs, ds, hc, hd⟩ := h
  rw [hd, List.length_append]
  omega

theorem getComputer_ext {st st' : Store} (h : st.Ext st') {r : Ref}
    (hr : r < st.computers.length) : st'.getComputer r = st.getComputer r := by
  obtain ⟨cs, ds, hc, hd⟩ := h
  unfold Store.getComputer
  rw [hc, getD_append_lt _ _ _ _ hr]

theorem getDisk_ext {st st' : Store} (h : st.Ext st') {r : Ref}
    (hr : r < st.disks.length) : st'.getDisk r = st.getDisk r := by
  obtain ⟨cs, ds, hc, hd⟩ := h
  unfold Store.getDisk
  rw [hd, getD_append_lt _ _ _ _ hr]

theorem wfComponent_ext {st st' : Store} (h : st.Ext st') {c : ComponentObj}
    (hc : c.wf st = true) : c.wf st' = true := by
  cases c with
  | cpu a b => rfl
  | memory s => rfl
  | disk r =>
    simp only [ComponentObj.wf, decide_eq_true_eq] at hc ⊢
    exact lt_of_lt_of_le hc (ext_disks_le h)

theorem resolveComponent_ext {st st' : Store} (h : st.Ext st')
    {c : ComponentObj} (hc : c.wf st = true) :
    c.resolve st' = c.resolve st := by
  cases c with
  | cpu a b => rfl
  | memory s => rfl
  | disk r =>
    simp only [ComponentObj.wf, decide_eq_true_eq] at hc
    simp only [ComponentObj.resolve, getDisk_ext h hc]

theorem wfComputer_ext {st st' : Store} (h : st.Ext st') {r : Ref}
    (hr : st.wfComputer r = true) : st'.wfComputer r = true := by
  simp only [Store.wfComputer, Bool.and_eq_true, decide_eq_true_eq,
    List.all_eq_true] at hr ⊢
  obtain ⟨h1, h2⟩ := hr
  refine ⟨lt_of_lt_of_le h1 (ext_computers_le h), ?_⟩
  rw [getComputer_ext h h1]
  exact fun c hc => wfComponent_ext h (h2 c hc)

theorem resolveComputer_ext {st st' : Store} (h : st.Ext st') {r : Ref}
    (hr : st.wfComputer r = true) :
    st'.resolveComputer r = st.resolveComputer r := by
  simp only [Store.wfComputer, Bool.and_eq_true, decide_eq_true_eq,
    List.all_eq_true] at hr
  obtain ⟨h1, h2⟩ := hr
  unfold Store.resolveComputer
  rw [getComputer_ext h h1]
  congr 1
  exact List.map_congr_left fun c hc => resolveComponent_ext h (h2 c hc)

theorem wfNetwork_ext {st st' : Store} (h : st.Ext st') {n : NetworkH}
    (hn : n.wf st = true) : n.wf st' = true := by
  simp only [NetworkH.wf, List.all_eq_true] at hn ⊢
  exact fun r hr => wfComputer_ext h (hn r hr)

theorem resolveNetwork_ext {st st' : Store} (h : st.Ext st') {n : NetworkH}
    (hn : n.wf st = true) : n.resolve st' = n.resolve st := by
  simp only [NetworkH.wf, List.all_eq_true] at hn
  unfold NetworkH.resolve
  congr 1
  exact List.map_congr_left fun r hr => resolveComputer_ext h (hn r hr)

theorem wf_computers_lt {st : Store} {n : NetworkH} (hn : n.wf st = true) :
    ∀ r ∈ n.computers, r < st.computers.length := by
  simp only [NetworkH.wf, List.all_eq_true, Store.wfComputer,
    Bool.and_eq_true, decide_eq_true_eq] at hn
  exact fun r hr => (hn r hr).1

theorem diskRefs_ext {st st' : Store} (h : st.Ext st') {n : NetworkH}
    (hn : n.wf st = true) : n.diskRefs st' = n.diskRefs st := by
  unfold NetworkH.diskRefs
  congr 1
  exact List.map_congr_left fun r hr => by
    rw [getComputer_ext h (wf_computers_lt hn r hr)]

theorem diskRefs_lt_of_wf {st : Store} {n : NetworkH} (hn : n.wf st = true) :
    ∀ dr ∈ n.diskRefs st, dr < st.disks.length := by
  intro dr hdr
  simp only [NetworkH.diskRefs, List.mem_flatten, List.mem_map] at hdr
  obtain ⟨s, ⟨r, hr, hs⟩, hdrs⟩ := hdr
  subst hs
  simp only [compDiskRefs, List.mem_flatten, List.mem_map] at hdrs
  obtain ⟨s', ⟨c, hc, hs'⟩, hdrs'⟩ := hdrs
  subst hs'
  simp only [NetworkH.wf, List.all_eq_true, Store.wfComputer,
    Bool.and_eq_true, List.all_eq_true] at hn
  have hcwf := (hn r hr).2 c hc
  cases c with
  | cpu a b => simp [ComponentObj.diskRefList] at hdrs'
  | memory s => simp [ComponentObj.diskRefList] at hdrs'
  | disk r' =>
    simp only [ComponentObj.diskRefList, List.mem_singleton] at hdrs'
    subst hdrs'
    simpa [ComponentObj.wf] using hcwf

/-! ### Frame lemmas: a write outside a network's reachable cells leaves its
observable state unchanged -/

theorem resolveComponent_disks_eq {st st' : Store} (h : st'.disks = st.disks)
    (c : ComponentObj) : c.resolve st' = c.resolve st := by
  cases c with
  | cpu a b => rfl
  | memory s => rfl
  | disk r => simp only [ComponentObj.resolve, Store.getDisk, h]

theorem resolve_frame_set_computer (st : Store) (n : NetworkH) (r : Ref)
    (x : ComputerObj) (hr : r ∉ n.computers) :
    n.resolve { st with computers := st.computers.set r x } = n.resolve st := by
  unfold NetworkH.resolve
  congr 1
  refine List.map_congr_left fun r' hr' => ?_
  have hne : r ≠ r' := fun he => hr (he ▸ hr')
  unfold Store.resolveComputer
  have hg : Store.getComputer { st with computers := st.computers.set r x } r'
      = st.getComputer r' := by
    unfold Store.getComputer
    exact getD_set_ne _ _ _ _ _ hne
  rw [hg]
  have hres : ComponentObj.resolve
        { st with computers := st.computers.set r x }
      = ComponentObj.resolve st := funext (resolveComponent_disks_eq rfl)
  rw [hres]

theorem resolve_frame_append_disks (st : Store) (n : NetworkH)
    (ds : List Disk) (hn : n.wf st = true) :
    n.resolve { st with disks := st.disks ++ ds } = n.resolve st := by
  have h : st.Ext { st with disks := st.disks ++ ds } := ⟨[], ds, by simp, rfl⟩
  exact resolveNetwork_ext h hn

theorem resolve_frame_set_disk (st : Store) (n : NetworkH) (r : Ref)
    (x : Disk) (hr : r ∉ n.diskRefs st) :
    n.resolve { st with disks := st.disks.set r x } = n.resolve st := by
  unfold NetworkH.resolve
  congr 1
  refine List.map_congr_left fun r' hr' => ?_
  unfold Store.resolveComputer
  have hg : Store.getComputer { st with disks := st.disks.set r x } r'
      = st.getComputer r' := rfl
  rw [hg]
  congr 1
  refine List.map_congr_left fun c hc => ?_
  cases c with
  | cpu a b => rfl
  | memory s => rfl
  | disk dr =>
    have hdr : dr ∈ n.diskRefs st := by
      simp only [NetworkH.diskRefs, List.mem_flatten, List.mem_map]
      refine ⟨compDiskRefs (st.getComputer r'), ⟨r', hr', rfl⟩, ?_⟩
      simp only [compDiskRefs, List.mem_flatten, List.mem_map]
      exact ⟨ComponentObj.diskRefList (ComponentObj.disk dr), ⟨_, hc, rfl⟩,
        by simp [ComponentObj.diskRefList]⟩
    have hne : r ≠ dr := fun he => hr (he ▸ hdr)
    simp only [ComponentObj.resolve, Store.getDisk]
    rw [getD_set_ne _ _ _ _ _ hne]

theorem addComponentRef_frame (st : Store) (n : NetworkH) (r : Ref)
    (c : ComponentObj) (hr : r ∉ n.computers) :
    n.resolve (st.addComponentRef r c) = n.resolve st :=
  resolve_frame_set_computer st n r _ hr

theorem addAddressRef_frame (st : Store) (n : NetworkH) (r : Ref)
    (a : Address) (hr : r ∉ n.computers) :
    n.resolve (st.addAddressRef r a) = n.resolve st :=
  resolve_frame_set_computer st n r _ hr

theorem addNewComponent_frame (st : Store) (n : NetworkH) (r : Ref)
    (nc : NewComponent) (hn : n.wf st = true) (hr : r ∉ n.computers) :
    n.resolve (st.addNewComponent r nc) = n.resolve st := by
  cases nc with
  | cpu a b => exact addComponentRef_frame st n r _ hr
  | memory s => exact addComponentRef_frame st n r _ hr
  | disk d =>
    simp only [Store.addNewComponent]
    rw [addComponentRef_frame _ n r _ hr]
    exact resolve_frame_append_disks st n [d] hn

theorem addPartitionRef_frame (st : Store) (n : NetworkH) (r : Ref)
    (s : Int) (nm : String) (hr : r ∉ n.diskRefs st) :
    n.resolve (st.addPartitionRef r s nm) = n.resolve st :=
  resolve_frame_set_disk st n r _ hr

/-! ### Specification of `copy.deepcopy` -/

theorem deepcopyItems_spec (l : List ComponentObj) : ∀ (st : Store),
    (∀ c ∈ l, c.wf st = true) →
    (deepcopyItems st l).2.computers = st.computers
      ∧ st.Ext (deepcopyItems st l).2
      ∧ (∀ c' ∈ (deepcopyItems st l).1, c'.wf (deepcopyItems st l).2 = true
          ∧ (∀ dr ∈ c'.diskRefList, st.disks.length ≤ dr))
      ∧ (deepcopyItems st l).1.map (ComponentObj.resolve (deepcopyItems st l).2)
          = l.map (ComponentObj.resolve st) := by
  induction l with
  | nil =>
    intro st _
    exact ⟨rfl, ext_refl st, by simp [deepcopyItems], by simp [deepcopyItems]⟩
  | cons c rest ih =>
    intro st hwf
    have hwfc : c.wf st = true := hwf c (List.mem_cons_self c rest)
    have hwfrest : ∀ x ∈ rest, x.wf st = true :=
      fun x hx => hwf x (List.mem_cons_of_mem c hx)
    cases c with
    | cpu a b =>
      obtain ⟨ih1, ih2, ih3, ih4⟩ := ih st hwfrest
      simp only [deepcopyItems]
      refine ⟨ih1, ih2, ?_, ?_⟩
      · intro c' hc'
        rcases List.mem_cons.mp hc' with h | h
        · subst h; exact ⟨rfl, by simp [ComponentObj.diskRefList]⟩
        · exact (ih3 c' h)
      · simp only [List.map_cons, ih4]
        rfl
    | memory s =>
      obtain ⟨ih1, ih2, ih3, ih4⟩ := ih st hwfrest
      simp only [deepcopyItems]
      refine ⟨ih1, ih2, ?_, ?_⟩
      · intro c' hc'
        rcases List.mem_cons.mp hc' with h | h
        · subst h; exact ⟨rfl, by simp [ComponentObj.diskRefList]⟩
        · exact (ih3 c' h)
      · simp only [List.map_cons, ih4]
        rfl
    | disk r =>
      have hext1 : st.Ext { st with disks := st.disks ++ [st.getDisk r] } :=
        ⟨[], [st.getDisk r], by simp, rfl⟩
      have hwfrest1 : ∀ x ∈ rest,
          x.wf { st with disks := st.disks ++ [st.getDisk r] } = true :=
        fun x hx => wfComponent_ext hext1 (hwfrest x hx)
      obtain ⟨ih1, ih2, ih3, ih4⟩ :=
        ih { st with disks := st.disks ++ [st.getDisk r] } hwfrest1
      simp only [deepcopyItems]
      have hextall : st.Ext
          (deepcopyItems { st with disks := st.disks ++ [st.getDisk r] } rest).2 :=
        ext_trans hext1 ih2
      have hlen : st.disks.length + 1
          ≤ (deepcopyItems { st with disks := st.disks ++ [st.getDisk r] }
              rest).2.disks.length := by
        have h2 := ext_disks_le ih2
        simpa using h2
      have hget : (deepcopyItems
            { st with disks := st.disks ++ [st.getDisk r] } rest).2.getDisk
              st.disks.length = st.getDisk r := by
        obtain ⟨cs2, ds2, hcs2, hds2⟩ := ih2
        show (deepcopyItems { st with disks := st.disks ++ [st.getDisk r] }
            rest).2.disks.getD st.disks.length default = st.getDisk r
        rw [hds2]
        show ((st.disks ++ [st.getDisk r]) ++ ds2).getD st.disks.length default
            = st.getDisk r
        rw [List.append_assoc, List.singleton_append]
        exact getD_append_exact _ _ _ _
      refine ⟨by rw [ih1], hextall, ?_, ?_⟩
      · intro c' hc'
        rcases List.mem_cons.mp hc' with h | h
        · subst h
          constructor
          · simp only [ComponentObj.wf, decide_eq_true_eq]
            exact lt_of_lt_of_le (Nat.lt_succ_self _) hlen
          · simp [ComponentObj.diskRefList]
        · refine ⟨(ih3 c' h).1, fun dr hdr => ?_⟩
          have := (ih3 c' h).2 dr hdr
          simp only [List.length_append, List.length_cons] at this
          omega
      · simp only [List.map_cons, ih4]
        congr 1
        · simp only [ComponentObj.resolve, hget]
        · exact List.map_congr_left fun x hx =>
            resolveComponent_ext hext1 (hwfrest x hx)

theorem getComputer_append_self (st : Store) (co : ComputerObj) :
    ({ st with computers := st.computers ++ [co] } : Store).getComputer
      st.computers.length = co := by
  show (st.computers ++ [co]).getD st.computers.length default = co
  exact getD_append_exact _ _ _ _

theorem ext_append_computer (st : Store) (co : ComputerObj) :
    st.Ext { st with computers := st.computers ++ [co] } :=
  ⟨[co], [], rfl, by simp⟩

theorem copyComputer_spec (st : Store) (r : Ref) (h : st.wfComputer r = true) :
    st.Ext (st.copyComputer r).2
      ∧ (st.copyComputer r).1 = st.computers.length
      ∧ (st.copyComputer r).1 < (st.copyComputer r).2.computers.length
      ∧ (st.copyComputer r).2.wfComputer (st.copyComputer r).1 = true
      ∧ (∀ dr ∈ compDiskRefs
            ((st.copyComputer r).2.getComputer (st.copyComputer r).1),
          st.disks.length ≤ dr)
      ∧ (st.copyComputer r).2.resolveComputer (st.copyComputer r).1
          = st.resolveComputer r := by
  have hitems : ∀ c ∈ (st.getComputer r).items, c.wf st = true := by
    simp only [Store.wfComputer, Bool.and_eq_true, List.all_eq_true] at h
    exact h.2
  obtain ⟨hcomp, hext, hwf2, hres⟩ :=
    deepcopyItems_spec (st.getComputer r).items st hitems
  simp only [Store.copyComputer]
  set l2 := (deepcopyItems st (st.getComputer r).items).1 with hl2
  set st1 := (deepcopyItems st (st.getComputer r).items).2 with hst1
  set co := (⟨(st.getComputer r).name, (st.getComputer r).addresses, l2⟩ :
    ComputerObj) with hco
  have hextstep : st1.Ext { st1 with computers := st1.computers ++ [co] } :=
    ext_append_computer st1 co
  have hget : ({ st1 with computers := st1.computers ++ [co] } :
      Store).getComputer st1.computers.length = co :=
    getComputer_append_self st1 co
  have hlen : st1.computers.length = st.computers.length := by rw [hcomp]
  refine ⟨ext_trans hext hextstep, hlen, ?_, ?_, ?_, ?_⟩
  · simp
  · simp only [Store.wfComputer, Bool.and_eq_true, decide_eq_true_eq,
      List.all_eq_true]
    refine ⟨by simp, ?_⟩
    rw [hget]
    intro c hc
    exact wfComponent_ext hextstep ((hwf2 c hc).1)
  · rw [hget]
    intro dr hdr
    simp only [hco, compDiskRefs, List.mem_flatten, List.mem_map] at hdr
    obtain ⟨s, ⟨c, hc, hs⟩, hdrs⟩ := hdr
    subst hs
    exact (hwf2 c hc).2 dr hdrs
  · unfold Store.resolveComputer
    rw [hget]
    have hresd : ComponentObj.resolve
        { st1 with computers := st1.computers ++ [co] }
        = ComponentObj.resolve st1 := funext (resolveComponent_disks_eq rfl)
    simp only [hco]
    rw [hresd, hres]

theorem deepcopyComputers_spec (rs : List Ref) : ∀ (st : Store),
    (∀ r ∈ rs, st.wfComputer r = true) →
    st.Ext (deepcopyComputers st rs).2
      ∧ (∀ r2 ∈ (deepcopyComputers st rs).1,
          st.computers.length ≤ r2
            ∧ (deepcopyComputers st rs).2.wfComputer r2 = true
            ∧ (∀ dr ∈ compDiskRefs ((deepcopyComputers st rs).2.getComputer r2),
                st.disks.length ≤ dr))
      ∧ (deepcopyComputers st rs).1.map (deepcopyComputers st rs).2.resolveComputer
          = rs.map st.resolveComputer := by
  induction rs with
  | nil =>
    intro st _
    exact ⟨ext_refl st, by simp [deepcopyComputers], by simp [deepcopyComputers]⟩
  | cons r rest ih =>
    intro st hwf
    have hwfr : st.wfComputer r = true := hwf r (List.mem_cons_self r rest)
    obtain ⟨hext1, hidx, hlt, hwfnew, hfresh, hresnew⟩ := copyComputer_spec st r hwfr
    have hwfrest : ∀ x ∈ rest, (st.copyComputer r).2.wfComputer x = true :=
      fun x hx => wfComputer_ext hext1 (hwf x (List.mem_cons_of_mem r hx))
    obtain ⟨ih1, ih2, ih3⟩ := ih (st.copyComputer r).2 hwfrest
    simp only [deepcopyComputers]
    refine ⟨ext_trans hext1 ih1, ?_, ?_⟩
    · intro r2 hr2
      rcases List.mem_cons.mp hr2 with h2 | h2
      · subst h2
        refine ⟨le_of_eq hidx.symm, wfComputer_ext ih1 hwfnew, ?_⟩
        rw [getComputer_ext ih1 hlt]
        exact hfresh
      · obtain ⟨hge, hwf2, hdr2⟩ := ih2 r2 h2
        refine ⟨le_trans (ext_computers_le hext1) hge, hwf2, fun dr hdr => ?_⟩
        exact le_trans (ext_disks_le hext1) (hdr2 dr hdr)
    · simp only [List.map_cons]
      congr 1
      · rw [resolveComputer_ext ih1 hwfnew, hresnew]
      · rw [ih3]
        exact List.map_congr_left fun x hx =>
          resolveComputer_ext hext1 (hwf x (List.mem_cons_of_mem r hx))

theorem deepcopy_spec (st : Store) (n : NetworkH) (hwf : n.wf st = true) :
    st.Ext (n.deepcopy st).2
      ∧ (n.deepcopy st).1.resolve (n.deepcopy st).2 = n.resolve st
      ∧ (n.deepcopy st).1.wf (n.deepcopy st).2 = true
      ∧ (∀ r ∈ (n.deepcopy st).1.computers, st.computers.length ≤ r)
      ∧ (∀ dr ∈ (n.deepcopy st).1.diskRefs (n.deepcopy st).2,
          st.disks.length ≤ dr) := by
  have hwfall : ∀ r ∈ n.computers, st.wfComputer r = true := by
    simp only [NetworkH.wf, List.all_eq_true] at hwf
    exact hwf
  obtain ⟨hext, hmem, hres⟩ := deepcopyComputers_spec n.computers st hwfall
  simp only [NetworkH.deepcopy]
  refine ⟨hext, ?_, ?_, ?_, ?_⟩
  · unfold NetworkH.resolve
    simp only [hres]
  · simp only [NetworkH.wf, List.all_eq_true]
    exact fun r hr => (hmem r hr).2.1
  · exact fun r hr => (hmem r hr).1
  · intro dr hdr
    simp only [NetworkH.diskRefs, List.mem_flatten, List.mem_map] at hdr
    obtain ⟨s, ⟨r, hr, hs⟩, hdrs⟩ := hdr
    subst hs
    exact (hmem r hr).2.2 dr hdrs

/-! ## The claims -/

/-- C1: rendering the Network built exactly as in the §8 scenario produces
byte-for-byte the expected 11-line text, with no trailing newline or trailing
whitespace. -/
theorem claim_C1 : exampleNetwork.map Network.str
    = Except.ok ("Network: MISIS network\n+-Host: server1.misis.ru\n| +-192.168.1.1\n| +-CPU, 4 cores @ 2500MHz\n| \\-Memory, 16000 MiB\n\\-Host: server2.misis.ru\n  +-10.0.0.1\n  +-CPU, 8 cores @ 3200MHz\n  \\-HDD, 2000 GiB\n    +-[0]: 500 GiB, system\n    \\-[1]: 1500 GiB, data") := by
  rfl

/-- C5 (counterexample): `Disk(Disk.MAGNETIC, -1)` is accepted by the
constructor (which validates only the storage type), and with no partitions
the partition-size sum `0` already exceeds the declared total size `-1`, so
the claim as stated fails for disks with a negative declared size. -/
theorem claim_C5_cex :
    Disk.make Disk.MAGNETIC (-1) = Except.ok exBadDisk
      ∧ Disk.applyRequests exBadDisk [] = exBadDisk
      ∧ partSum exBadDisk.partitions > exBadDisk.size :=
  ⟨rfl, rfl, by decide⟩

/-- C5 (amended): for every Disk constructed with a nonnegative total size
`S`, after any sequence of `add_partition` calls, with the failed ones
leaving the state unchanged, the sum of the stored partition sizes never
exceeds `S`; and an `add_partition` whose size exceeds the remaining free
space raises. -/
theorem claim_C5 (storage_type S : Int) (d0 : Disk)
    (reqs : List (Int × String))
    (hmk : Disk.make storage_type S = Except.ok d0) (hS : 0 ≤ S) :
    partSum (Disk.applyRequests d0 reqs).partitions ≤ S
      ∧ ∀ (d : Disk) (s : Int) (nm : String),
          d.size - partSum d.partitions < s →
          ((d.add_partition s nm).2).isSome = true := by
  constructor
  · have hd0 : d0 = ⟨storage_type, S, []⟩ := by
      unfold Disk.make at hmk
      split at hmk
      · injection hmk with h; exact h.symm
      · simp at hmk
    have h0 : partSum d0.partitions ≤ d0.size := by
      rw [hd0]; simpa [partSum] using hS
    have h1 := applyRequests_sum_le d0 reqs h0
    have h2 : d0.size = S := by rw [hd0]
    omega
  · intro d s nm h
    unfold Disk.add_partition
    rw [if_pos h]
    rfl

/-- C5 witness: a magnetic 2000 GiB disk, two successful adds and one
rejected add (ignored); the stored sizes sum to at most 2000. -/
theorem claim_C5_witness :
    Disk.make Disk.MAGNETIC 2000 = Except.ok ⟨1, 2000, []⟩
      ∧ (0 : Int) ≤ 2000
      ∧ partSum (Disk.applyRequests ⟨1, 2000, []⟩
          [(500, "system"), (1500, "data"), (1, "x")]).partitions ≤ 2000 :=
  ⟨rfl, by decide,
   (claim_C5 Disk.MAGNETIC 2000 ⟨1, 2000, []⟩
     [(500, "system"), (1500, "data"), (1, "x")] rfl (by decide)).1⟩

/-- C6: `Disk.add_partition` raises exactly when the requested size exceeds
the remaining free space (`size − sum(existing)`); when it raises the disk is
exactly what it was before the call, and otherwise exactly the one partition
is appended. -/
theorem claim_C6 (d : Disk) (s : Int) (nm : String) :
    (((d.add_partition s nm).2).isSome = true
        ↔ d.size - partSum d.partitions < s)
      ∧ (((d.add_partition s nm).2).isSome = true → (d.add_partition s nm).1 = d)
      ∧ ((d.add_partition s nm).2 = none →
          (d.add_partition s nm).1
            = { d with partitions := d.partitions ++ [(s, nm)] }) := by
  unfold Disk.add_partition
  split
  · rename_i h
    exact ⟨⟨fun _ => h, fun _ => rfl⟩, fun _ => rfl, fun h2 => by simp at h2⟩
  · rename_i h
    exact ⟨⟨fun h2 => by simp at h2, fun h2 => absurd h2 h⟩,
      fun h2 => by simp at h2, fun _ => rfl⟩

/-- C6 witness: adding 20 GiB to an empty 10 GiB disk raises and leaves the
disk unchanged. -/
theorem claim_C6_witness :
    ((⟨1, 10, []⟩ : Disk).add_partition 20 "x").2.isSome = true
      ∧ ((⟨1, 10, []⟩ : Disk).add_partition 20 "x").1 = (⟨1, 10, []⟩ : Disk) :=
  ⟨by decide, (claim_C6 ⟨1, 10, []⟩ 20 "x").2.1 (by decide)⟩

/-- C7: constructing an Address fails with `ValueError` whenever the text
does not match the validation pattern (in particular for
`"not-an-address"`), and constructing a Disk fails with `ValueError` for any
storage kind outside `{SSD, MAGNETIC}` (in particular for `2`). -/
theorem claim_C7 :
    (∀ addr : String, reMatchAddrPattern addr = false →
        Address.make addr = Except.error "Malformed network address")
      ∧ Address.make "not-an-address"
          = Except.error "Malformed network address"
      ∧ (∀ storage_type sz : Int, storage_type ≠ Disk.SSD →
          storage_type ≠ Disk.MAGNETIC →
          Disk.make storage_type sz = Except.error
            "Invalid storage type. Shoud be 0 for SSD or 1 for MAGNETIC")
      ∧ Disk.make 2 100 = Except.error
          "Invalid storage type. Shoud be 0 for SSD or 1 for MAGNETIC" := by
  refine ⟨?_, rfl, ?_, rfl⟩
  · intro addr h
    simp [Address.make, h]
  · intro t sz h0 h1
    simp [Disk.make, h0, h1]

/-- C7 witness: the two concrete rejections named by the claim. -/
theorem claim_C7_witness :
    reMatchAddrPattern "not-an-address" = false
      ∧ Address.make "not-an-address"
          = Except.error "Malformed network address"
      ∧ (2 : Int) ≠ Disk.SSD ∧ (2 : Int) ≠ Disk.MAGNETIC
      ∧ Disk.make 2 100 = Except.error
          "Invalid storage type. Shoud be 0 for SSD or 1 for MAGNETIC" :=
  ⟨by decide, claim_C7.1 "not-an-address" (by decide), by decide, by decide,
   claim_C7.2.2.1 2 100 (by decide) (by decide)⟩

/-- C8: `find_computer` returns the first computer in insertion order whose
name matches (stable on duplicates) and `none` on a miss; on the example
network it finds `server2.misis.ru` and returns `none` for `"nonexistent"`. -/
theorem claim_C8 :
    exampleNetwork.map (fun n => n.find_computer "server2.misis.ru")
        = Except.ok (some exServer2)
      ∧ exampleNetwork.map (fun n => n.find_computer "nonexistent")
          = Except.ok none
      ∧ (∀ (net : Network) (nm : String), (∀ c ∈ net.computers, c.name ≠ nm) →
          net.find_computer nm = none)
      ∧ (∀ (net : Network) (nm : String) (l1 : List Computer) (c : Computer)
            (l2 : List Computer), net.computers = l1 ++ c :: l2 → c.name = nm →
          (∀ c2 ∈ l1, c2.name ≠ nm) → net.find_computer nm = some c) :=
  ⟨rfl, rfl, find_computer_none_of_all_ne, find_computer_first⟩

/-- C8 witness: a miss returns the sentinel, and with two equally named
computers the first is returned. -/
theorem claim_C8_witness :
    (∀ c ∈ ([] : List Computer), c.name ≠ "x")
      ∧ (Network.mk "n" []).find_computer "x" = none
      ∧ (Network.mk "n" [Computer.new "a", Computer.new "a"]).computers
          = [] ++ Computer.new "a" :: [Computer.new "a"]
      ∧ (Network.mk "n" [Computer.new "a", Computer.new "a"]).find_computer "a"
          = some (Computer.new "a") :=
  ⟨by simp, claim_C8.2.2.1 (Network.mk "n" []) "x" (by simp), rfl,
   claim_C8.2.2.2 (Network.mk "n" [Computer.new "a", Computer.new "a"]) "a"
     [] (Computer.new "a") [Computer.new "a"] rfl rfl (by simp)⟩

/-- C9 (counterexample): `BasicCollection.find` on an element that is not in
the collection does not return an absent sentinel; it raises
(`list.index` raises `ValueError`), modelled here as `Except.error`. -/
theorem claim_C9_cex :
    BasicCollection.find ([] : List Nat) 0
      = Except.error "ValueError: elem is not in list" := rfl

/-- C9 (amended): `Network.find_computer` misses return the `None` sentinel
without raising, but `BasicCollection.find` raises `ValueError` whenever no
element of the collection equals the argument. -/
theorem claim_C9_amended :
    (∀ (net : Network) (nm : String), (∀ c ∈ net.computers, c.name ≠ nm) →
        net.find_computer nm = none)
      ∧ (∀ {α : Type} [_inst : BEq α] (items : List α) (e : α),
          (∀ x ∈ items, (x == e) = false) →
          BasicCollection.find items e
            = Except.error "ValueError: elem is not in list") := by
  refine ⟨find_computer_none_of_all_ne, ?_⟩
  intro α _inst items e h
  unfold BasicCollection.find
  rw [list_index_eq_none items e h]

/-- C9 witness: looking up 5 in the collection `[1, 2]` raises. -/
theorem claim_C9_amended_witness :
    (∀ x ∈ ([1, 2] : List Nat), (x == 5) = false)
      ∧ BasicCollection.find ([1, 2] : List Nat) 5
          = Except.error "ValueError: elem is not in list" :=
  ⟨by decide, claim_C9_amended.2 [1, 2] 5 (by decide)⟩

theorem renderAddresses_append (ns : Bool) (l1 l2 : List Address) :
    renderAddresses ns (l1 ++ l2)
      = renderAddresses ns l1 ++ renderAddresses ns l2 := by
  induction l1 with
  | nil => simp [renderAddresses]
  | cons a rest ih => simp [renderAddresses, ih, String.append_assoc]

/-- C10: an Address line always carries the branch glyph `"+-"` and never
`"\-"` (`Address.print_me` has no `is_last` parameter and leaves the `False`
default in place); hence a computer whose final rendered child is an address
(at least one address, no components) ends its subtree with a `"+-"` line. -/
theorem claim_C10 :
    (∀ (a : Address) (ns : Bool), a.print_me ns
        = (if ns then " " else "|") ++ " " ++ "+-" ++ a.address ++ "\n")
      ∧ (∀ (c : Computer) (il ns : Bool) (l : List Address) (a : Address),
          c.items = [] → c.addresses = l ++ [a] →
          ∃ s, c.print_me il ns
            = s ++ ((if ns then " " else "|") ++ " " ++ "+-"
                ++ a.address ++ "\n")) := by
  constructor
  · intro a ns
    cases ns <;> rfl
  · intro c il ns l a hitems haddr
    refine ⟨printable_print_me ("Host: " ++ c.name) "" il false true
      ++ renderAddresses ns l, ?_⟩
    simp only [Computer.print_me, hitems, haddr, renderAddresses_append]
    cases ns <;>
      simp [renderAddresses, renderComponents, Address.print_me,
        printable_print_me, String.append_assoc,
        show 0 < " ".length from by decide]

/-- C10 witness: a computer with one address and no components; its last
line is the address line with glyph `"+-"`. -/
theorem claim_C10_witness :
    (Computer.mk "ha" [Address.mk "10.0.0.1"] []).items = []
      ∧ (Computer.mk "ha" [Address.mk "10.0.0.1"] []).addresses
          = [] ++ [Address.mk "10.0.0.1"]
      ∧ ∃ s, (Computer.mk "ha" [Address.mk "10.0.0.1"] []).print_me true true
          = s ++ ((if true then " " else "|") ++ " " ++ "+-"
              ++ (Address.mk "10.0.0.1").address ++ "\n") :=
  ⟨rfl, rfl, claim_C10.2 (Computer.mk "ha" [Address.mk "10.0.0.1"] [])
    true true [] (Address.mk "10.0.0.1") rfl rfl⟩

/-- C2 (counterexample): in `cexNet` (one last computer holding a non-last
Disk followed by a CPU), the partition render call receives
`no_slash = true` while the disk's own `is_last` is `false`: the flag passed
down is not the parent's `is_last`. Observably, the partition line below
renders a leading blank, not the bar the claimed rule would put beneath a
non-last ancestor. -/
theorem claim_C2_cex :
    (⟨EdgeKind.diskToPartition, false, true, true⟩ : ChildCall)
        ∈ (Network.strTraced cexNet).2
      ∧ (⟨EdgeKind.diskToPartition, false, true, true⟩ : ChildCall).child_no_slash
          ≠ (⟨EdgeKind.diskToPartition, false, true, true⟩ :
              ChildCall).parent_is_last
      ∧ Network.str cexNet
          = "Network: net\n\\-Host: h\n  +-HDD, 2000 GiB\n    \\-[0]: 500 GiB, p\n  \\-CPU, 1 cores @ 1MHz" :=
  ⟨by decide, by decide, rfl⟩

/-- C2 (amended): a Computer's component loop does pass the computer's own
`is_last` as the children's continuation flag, but the address loop and the
Disk partition loop pass through the flag the parent itself received.
Since `Network.__str__` renders every computer with `no_slash = is_last`,
every recursive call beneath a computer rendered that way carries that
computer's `is_last` as its continuation flag - not, in general, its
immediate parent's `is_last`. -/
theorem claim_C2_amended :
    (∀ (c : Computer) (b : Bool) (ev : ChildCall),
        ev ∈ (c.print_me_traced b b).2 → ev.child_no_slash = b)
      ∧ (∀ (n : Network) (ev : ChildCall), ev ∈ (n.strTraced).2 →
          ev.kind = EdgeKind.computerToComponent →
          ev.child_no_slash = ev.parent_is_last) := by
  constructor
  · intro c b ev hev
    rcases mem_computer_print_me_traced c b b hev with h | h | h
    · exact h.2.2
    · exact h.2.2
    · exact h.2
  · intro n ev hev hk
    obtain ⟨b, hb, hcomp⟩ := mem_strTraced n hev
    rw [hb, hcomp hk]

/-- C2 amended witness: a concrete address render call under a non-last
computer carries that computer's `is_last` (= false) as its flag. -/
theorem claim_C2_amended_witness :
    (⟨EdgeKind.computerToAddress, false, false, false⟩ : ChildCall)
        ∈ (Computer.print_me_traced ⟨"h", [⟨"1"⟩], []⟩ false false).2
      ∧ (⟨EdgeKind.computerToAddress, false, false, false⟩ :
          ChildCall).child_no_slash = false :=
  ⟨by decide, claim_C2_amended.1 ⟨"h", [⟨"1"⟩], []⟩ false
    ⟨EdgeKind.computerToAddress, false, false, false⟩ (by decide)⟩

/-- C3: cloning a well-formed heap network (`copy.deepcopy`) yields a network
whose observable state - the full pure value, hence every computer, address,
component and partition in insertion order - equals the original's, so the
clone renders to the identical text. -/
theorem claim_C3 (st : Store) (n : NetworkH) (n2 : NetworkH) (st2 : Store)
    (hwf : n.wf st = true) (hcp : n.deepcopy st = (n2, st2)) :
    n2.resolve st2 = n.resolve st
      ∧ Network.str (n2.resolve st2) = Network.str (n.resolve st) := by
  have h1 : (n.deepcopy st).1 = n2 := by rw [hcp]
  have h2 : (n.deepcopy st).2 = st2 := by rw [hcp]
  subst h1
  subst h2
  obtain ⟨_, hres, _, _, _⟩ := deepcopy_spec st n hwf
  exact ⟨hres, by rw [hres]⟩

/-- C3 witness: the `main()` network: the clone resolves to the identical
pure network. -/
theorem claim_C3_witness :
    exNetH.wf exStore = true
      ∧ exCopy.1.resolve exCopy.2 = exNetH.resolve exStore :=
  ⟨by decide, (claim_C3 exStore exNetH exCopy.1 exCopy.2 (by decide) rfl).1⟩

/-- C4: clone independence. After `(n2, st2) = deepcopy(n)`, any mutation
applied through a computer found in `n2` (appending a CPU, Memory or freshly
built Disk component, or an address) or through a disk reachable from `n2`
(adding a partition) leaves the entire observable state of `n` unchanged,
and vice versa; in particular the component count of the equally named
computer in the other tree is unchanged. -/
theorem claim_C4 (st : Store) (n : NetworkH) (n2 : NetworkH) (st2 : Store)
    (hwf : n.wf st = true) (hcp : n.deepcopy st = (n2, st2)) :
    (∀ (nm : String) (r : Ref) (nc : NewComponent),
        n2.find_computer_ref st2 nm = some r →
        n.resolve (st2.addNewComponent r nc) = n.resolve st2)
      ∧ (∀ (nm : String) (r : Ref) (nc : NewComponent),
          n.find_computer_ref st2 nm = some r →
          n2.resolve (st2.addNewComponent r nc) = n2.resolve st2)
      ∧ (∀ (r : Ref) (psz : Int) (pn : String), r ∈ n2.diskRefs st2 →
          n.resolve (st2.addPartitionRef r psz pn) = n.resolve st2)
      ∧ (∀ (r : Ref) (psz : Int) (pn : String), r ∈ n.diskRefs st2 →
          n2.resolve (st2.addPartitionRef r psz pn) = n2.resolve st2)
      ∧ (∀ (nm : String) (r : Ref) (a : Address),
          n2.find_computer_ref st2 nm = some r →
          n.resolve (st2.addAddressRef r a) = n.resolve st2)
      ∧ (∀ (nm : String) (r : Ref) (a : Address),
          n.find_computer_ref st2 nm = some r →
          n2.resolve (st2.addAddressRef r a) = n2.resolve st2)
      ∧ (∀ (nm : String) (r : Ref) (nc : NewComponent) (nm2 : String),
          n2.find_computer_ref st2 nm = some r →
          Option.map (fun c => c.items.length)
              ((n.resolve (st2.addNewComponent r nc)).find_computer nm2)
            = Option.map (fun c => c.items.length)
              ((n.resolve st2).find_computer nm2)) := by
  have h1 : (n.deepcopy st).1 = n2 := by rw [hcp]
  have h2 : (n.deepcopy st).2 = st2 := by rw [hcp]
  subst h1
  subst h2
  obtain ⟨hext, hres, hwf2, hge, hgedisk⟩ := deepcopy_spec st n hwf
  have hnwf2 : n.wf (n.deepcopy st).2 = true := wfNetwork_ext hext hwf
  have hnlt : ∀ r ∈ n.computers, r < st.computers.length := wf_computers_lt hwf
  have hdisklt : ∀ dr ∈ n.diskRefs (n.deepcopy st).2, dr < st.disks.length := by
    rw [diskRefs_ext hext hwf]
    exact diskRefs_lt_of_wf hwf
  have hfind2 : ∀ (nm : String) (r : Ref),
      (n.deepcopy st).1.find_computer_ref (n.deepcopy st).2 nm = some r →
      r ∈ (n.deepcopy st).1.computers := fun nm r hf =>
    List.mem_of_mem_filter (List.mem_of_mem_head? hf)
  have hfind1 : ∀ (nm : String) (r : Ref),
      n.find_computer_ref (n.deepcopy st).2 nm = some r →
      r ∈ n.computers := fun nm r hf =>
    List.mem_of_mem_filter (List.mem_of_mem_head? hf)
  have hnot2 : ∀ (r : Ref), r ∈ (n.deepcopy st).1.computers →
      r ∉ n.computers := by
    intro r hr hmem
    have ha := hge r hr
    have hb := hnlt r hmem
    exact absurd hb (Nat.not_lt.mpr ha)
  have hnot1 : ∀ (r : Ref), r ∈ n.computers →
      r ∉ (n.deepcopy st).1.computers := by
    intro r hr hmem
    have ha := hge r hmem
    have hb := hnlt r hr
    exact absurd hb (Nat.not_lt.mpr ha)
  have hmut1 : ∀ (nm : String) (r : Ref) (nc : NewComponent),
      (n.deepcopy st).1.find_computer_ref (n.deepcopy st).2 nm = some r →
      n.resolve ((n.deepcopy st).2.addNewComponent r nc)
        = n.resolve (n.deepcopy st).2 := fun nm r nc hf =>
    addNewComponent_frame _ n r nc hnwf2 (hnot2 r (hfind2 nm r hf))
  refine ⟨hmut1, ?_, ?_, ?_, ?_, ?_, ?_⟩
  · intro nm r nc hf
    exact addNewComponent_frame _ _ r nc hwf2 (hnot1 r (hfind1 nm r hf))
  · intro r psz pn hr
    have hfresh := hgedisk r hr
    have hnotin : r ∉ n.diskRefs (n.deepcopy st).2 := by
      intro hmem
      have hb := hdisklt r hmem
      exact absurd hb (Nat.not_lt.mpr hfresh)
    exact addPartitionRef_frame _ n r psz pn hnotin
  · intro r psz pn hr
    have hsmall := hdisklt r hr
    have hnotin : r ∉ (n.deepcopy st).1.diskRefs (n.deepcopy st).2 := by
      intro hmem
      have hb := hgedisk r hmem
      exact absurd hsmall (Nat.not_lt.mpr hb)
    exact addPartitionRef_frame _ _ r psz pn hnotin
  · intro nm r a hf
    exact addAddressRef_frame _ n r a (hnot2 r (hfind2 nm r hf))
  · intro nm r a hf
    exact addAddressRef_frame _ _ r a (hnot1 r (hfind1 nm r hf))
  · intro nm r nc nm2 hf
    rw [hmut1 nm r nc hf]

/-- C4 witness: the `main()` scenario. The clone's `server2.misis.ru` lives
at the fresh cell 3; adding the new SSD disk to it leaves the original
network's observable state untouched. -/
theorem claim_C4_witness :
    exCopy.1.find_computer_ref exCopy.2 "server2.misis.ru" = some 3
      ∧ exNetH.resolve (exCopy.2.addNewComponent 3 (NewComponent.disk exSsd))
          = exNetH.resolve exCopy.2 :=
  ⟨by decide, (claim_C4 exStore exNetH exCopy.1 exCopy.2 (by decide) rfl).1
    "server2.misis.ru" 3 (NewComponent.disk exSsd) (by decide)⟩
